import Mathlib

/-!
Shallow embedding of `crates/egui/src/layers.rs`: the `Order` / `LayerId`
layer model, `PaintList` (a growable list of clipped shapes), and
`GraphicLayers` with its end-of-frame `drain` algorithm.

Modelling conventions:
* Rust `Vec<T>` becomes `List T`; pushes append on the right.
* The `IdMap` (an `ahash` hash map) becomes an association list with
  insertion-order iteration; hash-map key uniqueness is carried as an
  explicit well-formedness predicate (`IdMap.WF`).
* A Rust slice-indexing panic (in `transform_range`) becomes `Option.none`.
* Mutating methods become functions returning the new value.
-/

namespace EguiLayers

/-- Modelled from the spec: `Id` is "an opaque identifier" (the real `Id`
type lives outside this file's sources); we use `Nat` as the opaque carrier. -/
abbrev Id := Nat

/-- Modelled from the spec: the clip rectangle is an opaque geometric payload
(`Rect` is defined in `emath`, outside the sources here); `Nat` as carrier. -/
abbrev Rect := Nat

/-- Modelled from the spec: `Shape` is "treated as an opaque payload with a
`transform(by)` operation"; `Nat` as carrier. -/
abbrev Shape := Nat

/-- Modelled from the spec: a `TSTransform` acts on clip rectangles via
`mul_rect` and on shapes via `Shape::transform`; both actions are kept as
opaque functions, since the geometry lives outside the sources here. -/
structure TSTransform where
  mulRect : Rect → Rect
  transformShape : Shape → Shape

/-- `Order`: different layer categories (`layers.rs`). -/
inductive Order where
  | Background
  | Middle
  | Foreground
  | Tooltip
  | Debug
deriving DecidableEq, Repr

/-- `Order::ALL` (`layers.rs`): all five categories, in painting order. -/
def Order.ALL : List Order :=
  [.Background, .Middle, .Foreground, .Tooltip, .Debug]

/-- `LayerId`: an identifier for a paint layer (`layers.rs`). -/
structure LayerId where
  order : Order
  id : Id
deriving DecidableEq, Repr

/-- `ClippedShape`: a shape paired with a clip rectangle. -/
structure ClippedShape where
  clip_rect : Rect
  shape : Shape
deriving DecidableEq, Repr

/-- Applying a `TSTransform` to a `ClippedShape`, as done inline in
`drain` and in `PaintList::transform{,_range}`:
`clip_rect = t * clip_rect; shape.transform(t)`. -/
def ClippedShape.applyTransform (t : TSTransform) (cs : ClippedShape) : ClippedShape :=
  { clip_rect := t.mulRect cs.clip_rect, shape := t.transformShape cs.shape }

/-- `ShapeIdx`: a unique identifier of a specific shape in a `PaintList`. -/
structure ShapeIdx where
  idx : Nat
deriving DecidableEq, Repr

/-- `PaintList`: a list of shapes paired with clip rectangles
(`pub struct PaintList(Vec<ClippedShape>)`). -/
abbrev PaintList := List ClippedShape

namespace PaintList

/-- `PaintList::is_empty`. -/
def is_empty (l : PaintList) : Bool :=
  List.isEmpty l

/-- `PaintList::next_idx`: `ShapeIdx(self.0.len())`. -/
def next_idx (l : PaintList) : ShapeIdx :=
  ⟨List.length l⟩

/-- `PaintList::add`: push a clipped shape, returning the index it got
(`let idx = self.next_idx(); self.0.push(...); idx`). -/
def add (l : PaintList) (clip_rect : Rect) (shape : Shape) : PaintList × ShapeIdx :=
  (l ++ [⟨clip_rect, shape⟩], next_idx l)

/-- `PaintList::extend`: push many shapes sharing one clip rectangle. -/
def extend (l : PaintList) (clip_rect : Rect) (shapes : List Shape) : PaintList :=
  l ++ List.map (fun s => ⟨clip_rect, s⟩) shapes

/-- `PaintList::set`: overwrite the entry at `idx`; if
`self.0.len() <= idx.0` the method logs a warning and returns without
mutating. -/
def set (l : PaintList) (idx : ShapeIdx) (clip_rect : Rect) (shape : Shape) : PaintList :=
  if List.length l ≤ idx.idx then l
  else List.set l idx.idx ⟨clip_rect, shape⟩

/-- `PaintList::mutate_shape`: `self.0.get_mut(idx.0).map(f)` — apply `f`
at `idx` if in bounds, silently do nothing otherwise. -/
def mutate_shape (l : PaintList) (idx : ShapeIdx) (f : ClippedShape → ClippedShape) : PaintList :=
  match l[idx.idx]? with
  | some cs => List.set l idx.idx (f cs)
  | none => l

/-- `PaintList::transform`: transform every entry in place. -/
def transform (l : PaintList) (t : TSTransform) : PaintList :=
  List.map (ClippedShape.applyTransform t) l

/-- `PaintList::transform_range`: transform the entries of the slice
`self.0[start.0..end.0]` in place. Rust slice indexing panics when
`start.0 > end.0` or `end.0 > len`; the panic is modelled as `none`. -/
def transform_range (l : PaintList) (start stop : ShapeIdx) (t : TSTransform) :
    Option PaintList :=
  if start.idx ≤ stop.idx ∧ stop.idx ≤ List.length l then
    some (List.take start.idx l
      ++ List.map (ClippedShape.applyTransform t)
          (List.take (stop.idx - start.idx) (List.drop start.idx l))
      ++ List.drop stop.idx l)
  else
    none

end PaintList

/-- `IdMap<V>` (an `ahash` hash map keyed by `Id`), modelled as an
association list iterated in insertion order. -/
abbrev IdMap (V : Type) := List (Id × V)

namespace IdMap

/-- Hash-map lookup: first entry with the given key. -/
def get {V : Type} (m : IdMap V) (k : Id) : Option V :=
  match m with
  | [] => none
  | p :: rest => if p.1 = k then some p.2 else get rest k

/-- Replace the value stored under key `k` (used for the move-out step of
`drain`, which leaves an emptied `Vec` under the same key). -/
def setVal {V : Type} (m : IdMap V) (k : Id) (v : V) : IdMap V :=
  List.map (fun p => if p.1 = k then (k, v) else p) m

/-- Hash-map key uniqueness: each key occurs at most once. -/
def WF {V : Type} (m : IdMap V) : Prop :=
  List.Nodup (List.map Prod.fst m)

/-- `order_map.retain(|_, list| !list.is_empty())` (`drain`, step 1). -/
def retainNonEmpty (m : IdMap PaintList) : IdMap PaintList :=
  List.filter (fun p => !(PaintList.is_empty p.2)) m

/-- Every layer's list replaced by the empty list, keys kept: the state of
an order's map after both emission passes of `drain` are done with it
(`all_shapes.append(&mut list.0)` moves the entries out, leaving each
`Vec` empty under its key). -/
def eraseVals (m : IdMap PaintList) : IdMap PaintList :=
  List.map (fun p => (p.1, ([] : PaintList))) m

end IdMap

/-- Conditional transform used by `drain`: when a `to_global` transform is
registered for the layer, apply it to every entry; otherwise do nothing. -/
def applyOptT (t? : Option TSTransform) (l : PaintList) : PaintList :=
  match t? with
  | some t => List.map (ClippedShape.applyTransform t) l
  | none => l

/-- All shapes currently held by an order's map, each transformed by its
layer's registered `to_global` transform (if any), in iteration order. -/
def IdMap.content (o : Order) (tg : LayerId → Option TSTransform)
    (m : IdMap PaintList) : List ClippedShape :=
  List.flatMap m (fun p => applyOptT (tg ⟨o, p.1⟩) p.2)

/-- `GraphicLayers` (`[IdMap<PaintList>; Order::COUNT]`): one map from
layer id to `PaintList` per `Order`, the array indexed by `order as usize`. -/
abbrev GraphicLayers := Order → IdMap PaintList

namespace GraphicLayers

/-- `GraphicLayers::default()`: every order's map is empty. -/
def empty : GraphicLayers := fun _ => []

/-- `GraphicLayers::entry(layer_id)` followed by one `PaintList::add`:
get-or-create the layer's list, then push one clipped shape.
(Rust's `entry` hands out `&mut PaintList`; the combined operation is the
functional rendering of `entry(lid).add(r, s)`.) -/
def entry_add (gl : GraphicLayers) (lid : LayerId) (clip_rect : Rect) (shape : Shape) :
    GraphicLayers :=
  let m := gl lid.order
  let m' :=
    match IdMap.get m lid.id with
    | some l => IdMap.setVal m lid.id (PaintList.add l clip_rect shape).1
    | none => m ++ [(lid.id, (PaintList.add [] clip_rect shape).1)]
  fun o => if o = lid.order then m' else gl o

/-- `drain`, first inner loop: "First do the layers part of area_order".
Walks `area_order`; for each id of the current order present in the map,
applies the registered transform to that list, moves its entries to the
tail of the output, and leaves the emptied list under the same key
(`all_shapes.append(&mut list.0)` leaves `list.0` empty). -/
def drainAreaPass (o : Order) (tg : LayerId → Option TSTransform)
    (ao : List LayerId) (m : IdMap PaintList) (acc : List ClippedShape) :
    IdMap PaintList × List ClippedShape :=
  match ao with
  | [] => (m, acc)
  | lid :: rest =>
    if lid.order = o then
      match IdMap.get m lid.id with
      | some l =>
        drainAreaPass o tg rest (IdMap.setVal m lid.id [])
          (acc ++ applyOptT (tg lid) l)
      | none => drainAreaPass o tg rest m acc
    else
      drainAreaPass o tg rest m acc

/-- `drain`, body of the outer loop for one `Order`:
1. prune empty lists (`retain`);
2. emit the layers named in `area_order` (`drainAreaPass`);
3. emit what is left, in iteration order, transforming each list
   (`IdMap.content`), every list ending up empty under its key. -/
def drainOrder (o : Order) (ao : List LayerId) (tg : LayerId → Option TSTransform)
    (m : IdMap PaintList) : IdMap PaintList × List ClippedShape :=
  let retained := IdMap.retainNonEmpty m
  let step2 := drainAreaPass o tg ao retained []
  let leftover := IdMap.content o tg step2.1
  (IdMap.eraseVals step2.1, step2.2 ++ leftover)

/-- `GraphicLayers::drain(area_order, to_global)`: loop over `Order::ALL`,
accumulating each order's shapes and updating each order's map. -/
def drain (gl : GraphicLayers) (ao : List LayerId) (tg : LayerId → Option TSTransform) :
    List ClippedShape × GraphicLayers :=
  List.foldl
    (fun st o =>
      let r := drainOrder o ao tg (st.2 o)
      (st.1 ++ r.2, fun o' => if o' = o then r.1 else st.2 o'))
    ([], gl) Order.ALL

/-- Key uniqueness for every order's map. -/
def WF (gl : GraphicLayers) : Prop :=
  ∀ o, IdMap.WF (gl o)

end GraphicLayers

/-- A sequence of `PaintList::add` calls, applied left to right
(the returned indices are discarded; `add` returns the new list in `.1`). -/
def PaintList.addAll (l : PaintList) (ops : List (Rect × Shape)) : PaintList :=
  List.foldl (fun acc p => (PaintList.add acc p.1 p.2).1) l ops

/-- One growth operation on a `PaintList`: either `add` or `extend`. -/
inductive PaintOp where
  | addOp (clip_rect : Rect) (shape : Shape)
  | extendOp (clip_rect : Rect) (shapes : List Shape)

/-- Apply a sequence of `add`/`extend` calls, left to right. -/
def PaintList.applyOps (l : PaintList) (ops : List PaintOp) : PaintList :=
  List.foldl
    (fun acc op =>
      match op with
      | .addOp r s => (PaintList.add acc r s).1
      | .extendOp r ss => PaintList.extend acc r ss)
    l ops

/-! ### Helper lemmas about `PaintList` -/

theorem PaintList.addAll_cons (l : PaintList) (p : Rect × Shape) (ops : List (Rect × Shape)) :
    PaintList.addAll l (p :: ops) = PaintList.addAll (l ++ [⟨p.1, p.2⟩]) ops := rfl

theorem PaintList.length_addAll (ops : List (Rect × Shape)) (l : PaintList) :
    List.length (PaintList.addAll l ops) = List.length l + ops.length := by
  induction ops generalizing l with
  | nil => simp [PaintList.addAll]
  | cons p rest ih =>
    rw [PaintList.addAll_cons, ih]
    simp [List.length_append]
    omega

theorem PaintList.applyOps_cons (l : PaintList) (op : PaintOp) (ops : List PaintOp) :
    PaintList.applyOps l (op :: ops)
      = PaintList.applyOps
          (match op with
           | .addOp r s => (PaintList.add l r s).1
           | .extendOp r ss => PaintList.extend l r ss) ops := rfl

/-- Both `add` and `extend` only ever append: any sequence of them leaves
the original entries as a prefix. -/
theorem PaintList.applyOps_eq_append (ops : List PaintOp) (l : PaintList) :
    ∃ r, PaintList.applyOps l ops = l ++ r := by
  induction ops generalizing l with
  | nil => exact ⟨[], by simp [PaintList.applyOps]⟩
  | cons op rest ih =>
    rw [PaintList.applyOps_cons]
    cases op with
    | addOp r s =>
      obtain ⟨tail, ht⟩ := ih (PaintList.add l r s).1
      refine ⟨⟨r, s⟩ :: tail, ?_⟩
      rw [ht]
      simp [PaintList.add]
    | extendOp r ss =>
      obtain ⟨tail, ht⟩ := ih (PaintList.extend l r ss)
      refine ⟨List.map (fun s => ⟨r, s⟩) ss ++ tail, ?_⟩
      rw [ht]
      simp [PaintList.extend]

/-! ### Claims about `PaintList` -/

/-- C5: for every sequence of `add` calls on an initially empty `PaintList`,
`next_idx` queried immediately before the next `add` equals the `ShapeIdx`
that `add` returns, and after `n` prior adds that index is `n` (i.e. the
`N`th add, 1-based, returns `N-1`). `next_idx` is a pure query: in this
embedding it is a function of the list and returns no new list. -/
theorem C5_next_idx_pred_add (ops : List (Rect × Shape)) (r : Rect) (s : Shape) :
    (PaintList.add (PaintList.addAll [] ops) r s).2
        = PaintList.next_idx (PaintList.addAll [] ops)
      ∧ PaintList.next_idx (PaintList.addAll [] ops) = ⟨ops.length⟩ := by
  constructor
  · rfl
  · simp [PaintList.next_idx, PaintList.length_addAll]

/-- C6: `set` with an out-of-bounds index (`len <= idx.0`) leaves the list
unchanged (and, being a total function here, does not panic); with an
in-bounds index it overwrites exactly the entry at `idx`, keeping the
length and every other entry. -/
theorem C6_set_bounds (l : PaintList) (idx : ShapeIdx) (r : Rect) (s : Shape) :
    (List.length l ≤ idx.idx → PaintList.set l idx r s = l)
    ∧ (idx.idx < List.length l →
        List.length (PaintList.set l idx r s) = List.length l
        ∧ (PaintList.set l idx r s)[idx.idx]? = some ⟨r, s⟩
        ∧ ∀ j, j ≠ idx.idx → (PaintList.set l idx r s)[j]? = l[j]?) := by
  constructor
  · intro h
    simp [PaintList.set, h]
  · intro h
    have hnle : ¬ List.length l ≤ idx.idx := by omega
    refine ⟨?_, ?_, ?_⟩
    · simp [PaintList.set, hnle, List.length_set]
    · simp [PaintList.set, hnle]
      exact List.getElem?_set_self h
    · intro j hj
      simp [PaintList.set, hnle]
      exact List.getElem?_set_ne (Ne.symm hj)

/-- Witness for C6 at concrete inputs: an out-of-bounds `set` is the
identity, an in-bounds `set` rewrites its slot and keeps the others. -/
theorem C6_set_bounds_witness :
    PaintList.set [⟨0, 0⟩] ⟨1⟩ 5 5 = [⟨0, 0⟩]
    ∧ (PaintList.set [⟨0, 0⟩, ⟨1, 1⟩] ⟨0⟩ 5 6)[0]? = some ⟨5, 6⟩
    ∧ (PaintList.set [⟨0, 0⟩, ⟨1, 1⟩] ⟨0⟩ 5 6)[1]? = ([⟨0, 0⟩, ⟨1, 1⟩] : PaintList)[1]? :=
  ⟨(C6_set_bounds [⟨0, 0⟩] ⟨1⟩ 5 5).1 (by decide),
   ((C6_set_bounds [⟨0, 0⟩, ⟨1, 1⟩] ⟨0⟩ 5 6).2 (by decide)).2.1,
   ((C6_set_bounds [⟨0, 0⟩, ⟨1, 1⟩] ⟨0⟩ 5 6).2 (by decide)).2.2 1 (by decide)⟩

/-- C7: under the precondition `start <= end <= len`, `transform_range`
succeeds (no panic) and transforms exactly the entries with index in
`[start, end)`, leaving every other entry identical. -/
theorem C7_transform_range_window (l : PaintList) (start stop : ShapeIdx)
    (t : TSTransform) (h1 : start.idx ≤ stop.idx) (h2 : stop.idx ≤ List.length l) :
    ∃ l', PaintList.transform_range l start stop t = some l'
      ∧ List.length l' = List.length l
      ∧ ∀ i, l'[i]? =
          if start.idx ≤ i ∧ i < stop.idx
          then Option.map (ClippedShape.applyTransform t) l[i]?
          else l[i]? := by
  refine ⟨List.take start.idx l
      ++ List.map (ClippedShape.applyTransform t)
          (List.take (stop.idx - start.idx) (List.drop start.idx l))
      ++ List.drop stop.idx l, ?_, ?_, ?_⟩
  · unfold PaintList.transform_range
    rw [if_pos ⟨h1, h2⟩]
  · simp [List.length_append, List.length_take, List.length_drop, List.length_map]
    omega
  · intro i
    have hA : (List.take start.idx l).length = start.idx := by
      simp [List.length_take]
      omega
    have hAB : (List.take start.idx l
        ++ List.map (ClippedShape.applyTransform t)
            (List.take (stop.idx - start.idx) (List.drop start.idx l))).length
          = stop.idx := by
      simp [List.length_append, List.length_map, List.length_take, List.length_drop]
      omega
    simp only [List.getElem?_append]
    rw [hA, hAB]
    by_cases h3 : i < start.idx
    · rw [if_pos (by omega : i < stop.idx), if_pos h3,
        if_neg (by omega : ¬ (start.idx ≤ i ∧ i < stop.idx)),
        List.getElem?_take, if_pos h3]
    · by_cases h4 : i < stop.idx
      · rw [if_pos h4, if_neg h3,
          if_pos (⟨by omega, h4⟩ : start.idx ≤ i ∧ i < stop.idx),
          List.getElem?_map, List.getElem?_take,
          if_pos (by omega : i - start.idx < stop.idx - start.idx),
          List.getElem?_drop]
        have hidx : start.idx + (i - start.idx) = i := by omega
        rw [hidx]
      · rw [if_neg h4, if_neg (by omega : ¬ (start.idx ≤ i ∧ i < stop.idx)),
          List.getElem?_drop]
        have hidx : stop.idx + (i - stop.idx) = i := by omega
        rw [hidx]

/-- Witness for C7 at concrete inputs: transforming the middle entry of a
three-entry list. -/
theorem C7_transform_range_window_witness :
    ∃ l', PaintList.transform_range [⟨0, 0⟩, ⟨1, 1⟩, ⟨2, 2⟩] ⟨1⟩ ⟨2⟩
          ⟨fun r => r + 10, fun s => s + 20⟩ = some l'
      ∧ List.length l' = List.length ([⟨0, 0⟩, ⟨1, 1⟩, ⟨2, 2⟩] : PaintList)
      ∧ ∀ i, l'[i]? =
          if (ShapeIdx.mk 1).idx ≤ i ∧ i < (ShapeIdx.mk 2).idx
          then Option.map
              (ClippedShape.applyTransform ⟨fun r => r + 10, fun s => s + 20⟩)
              ([⟨0, 0⟩, ⟨1, 1⟩, ⟨2, 2⟩] : PaintList)[i]?
          else ([⟨0, 0⟩, ⟨1, 1⟩, ⟨2, 2⟩] : PaintList)[i]? :=
  C7_transform_range_window [⟨0, 0⟩, ⟨1, 1⟩, ⟨2, 2⟩] ⟨1⟩ ⟨2⟩
    ⟨fun r => r + 10, fun s => s + 20⟩ (by decide) (by decide)

/-- C8: previously returned `ShapeIdx` values stay valid and keep denoting
the same entry under any later sequence of `add`/`extend` calls. -/
theorem C8_indices_stable (l : PaintList) (ops : List PaintOp) (i : Nat)
    (h : i < List.length l) :
    i < List.length (PaintList.applyOps l ops)
      ∧ (PaintList.applyOps l ops)[i]? = l[i]? := by
  obtain ⟨rest, hr⟩ := PaintList.applyOps_eq_append ops l
  rw [hr]
  constructor
  · simp [List.length_append]
    omega
  · rw [List.getElem?_append, if_pos h]

/-- Witness for C8 at concrete inputs: the first entry survives an `add`
followed by an `extend`. -/
theorem C8_indices_stable_witness :
    0 < List.length (PaintList.applyOps [⟨1, 2⟩] [.addOp 3 4, .extendOp 5 [6, 7]])
      ∧ (PaintList.applyOps [⟨1, 2⟩] [.addOp 3 4, .extendOp 5 [6, 7]])[0]?
          = ([⟨1, 2⟩] : PaintList)[0]? :=
  C8_indices_stable [⟨1, 2⟩] [.addOp 3 4, .extendOp 5 [6, 7]] 0 (by decide)

/-- C10: `transform_range` is not total: it "panics" (here: returns `none`)
exactly when `end.0 > len` or `start.0 > end.0`, and under the precondition
`start.0 <= end.0 <= len` the panic branch is unreachable. By contrast,
`set` out of bounds is a (logged) no-op and `mutate_shape` out of bounds is
a silent no-op. -/
theorem C10_transform_range_partiality (l : PaintList) (start stop : ShapeIdx)
    (t : TSTransform) :
    (PaintList.transform_range l start stop t = none
        ↔ (List.length l < stop.idx ∨ stop.idx < start.idx))
    ∧ (start.idx ≤ stop.idx → stop.idx ≤ List.length l →
        (PaintList.transform_range l start stop t).isSome = true)
    ∧ (∀ idx r s, List.length l ≤ idx.idx → PaintList.set l idx r s = l)
    ∧ (∀ idx f, List.length l ≤ idx.idx → PaintList.mutate_shape l idx f = l) := by
  refine ⟨?_, ?_, ?_, ?_⟩
  · unfold PaintList.transform_range
    split
    · next h =>
      obtain ⟨ha, hb⟩ := h
      simp
      omega
    · next h =>
      simp
      omega
  · intro h1 h2
    unfold PaintList.transform_range
    rw [if_pos ⟨h1, h2⟩]
    rfl
  · intro idx r s h
    simp [PaintList.set, h]
  · intro idx f h
    unfold PaintList.mutate_shape
    rw [List.getElem?_eq_none h]

/-- Witness for C10 at concrete inputs: an overlong range is rejected, a
valid range succeeds, and out-of-bounds `set`/`mutate_shape` are no-ops. -/
theorem C10_transform_range_partiality_witness :
    (PaintList.transform_range [⟨0, 0⟩] ⟨0⟩ ⟨2⟩ ⟨fun r => r, fun s => s⟩ = none
        ↔ (List.length ([⟨0, 0⟩] : PaintList) < 2 ∨ 2 < 0))
    ∧ (PaintList.transform_range [⟨0, 0⟩] ⟨0⟩ ⟨1⟩ ⟨fun r => r, fun s => s⟩).isSome = true
    ∧ PaintList.set [⟨0, 0⟩] ⟨3⟩ 7 8 = [⟨0, 0⟩]
    ∧ PaintList.mutate_shape [⟨0, 0⟩] ⟨3⟩ (fun cs => cs) = [⟨0, 0⟩] :=
  ⟨(C10_transform_range_partiality [⟨0, 0⟩] ⟨0⟩ ⟨2⟩ ⟨fun r => r, fun s => s⟩).1,
   (C10_transform_range_partiality [⟨0, 0⟩] ⟨0⟩ ⟨1⟩ ⟨fun r => r, fun s => s⟩).2.1
     (by decide) (by decide),
   (C10_transform_range_partiality [⟨0, 0⟩] ⟨0⟩ ⟨2⟩ ⟨fun r => r, fun s => s⟩).2.2.1
     ⟨3⟩ 7 8 (by decide),
   (C10_transform_range_partiality [⟨0, 0⟩] ⟨0⟩ ⟨2⟩ ⟨fun r => r, fun s => s⟩).2.2.2
     ⟨3⟩ (fun cs => cs) (by decide)⟩

/-! ### Helper lemmas about `IdMap` and `drain` -/

theorem applyOptT_length (t? : Option TSTransform) (l : PaintList) :
    List.length (applyOptT t? l) = List.length l := by
  cases t? <;> simp [applyOptT]

theorem applyOptT_nil (t? : Option TSTransform) : applyOptT t? [] = [] := by
  cases t? <;> simp [applyOptT]

theorem IdMap.get_none_of_not_mem {V : Type} (m : IdMap V) (k : Id)
    (h : k ∉ List.map Prod.fst m) : IdMap.get m k = none := by
  induction m with
  | nil => rfl
  | cons p rest ih =>
    simp only [List.map_cons, List.mem_cons, not_or] at h
    rw [IdMap.get, if_neg (fun hk => h.1 hk.symm)]
    exact ih h.2

theorem IdMap.get_eraseVals (m : IdMap PaintList) (k : Id) :
    IdMap.get (IdMap.eraseVals m) k
      = Option.map (fun _ => ([] : PaintList)) (IdMap.get m k) := by
  induction m with
  | nil => rfl
  | cons p rest ih =>
    by_cases h : p.1 = k
    · simp [IdMap.eraseVals, IdMap.get, h]
    · simp only [IdMap.eraseVals, List.map_cons] at *
      rw [IdMap.get, IdMap.get, if_neg h, if_neg h]
      exact ih

theorem IdMap.map_fst_setVal {V : Type} (m : IdMap V) (k : Id) (v : V) :
    List.map Prod.fst (IdMap.setVal m k v) = List.map Prod.fst m := by
  simp only [IdMap.setVal, List.map_map]
  apply List.map_congr_left
  intro q _
  by_cases h : q.1 = k <;> simp [h]

theorem IdMap.eraseVals_setVal (m : IdMap PaintList) (k : Id) (v : PaintList) :
    IdMap.eraseVals (IdMap.setVal m k v) = IdMap.eraseVals m := by
  simp only [IdMap.eraseVals, IdMap.setVal, List.map_map]
  apply List.map_congr_left
  intro q _
  by_cases h : q.1 = k <;> simp [h]

theorem IdMap.retainNonEmpty_eraseVals (m : IdMap PaintList) :
    IdMap.retainNonEmpty (IdMap.eraseVals m) = [] := by
  induction m with
  | nil => rfl
  | cons p rest ih =>
    simp only [IdMap.eraseVals, List.map_cons] at ih ⊢
    rw [IdMap.retainNonEmpty, List.filter_cons]
    simp only [PaintList.is_empty, List.isEmpty_nil, Bool.not_true, Bool.false_eq_true,
      if_false]
    exact ih

theorem IdMap.WF_retainNonEmpty (m : IdMap PaintList) (hw : IdMap.WF m) :
    IdMap.WF (IdMap.retainNonEmpty m) :=
  List.Nodup.sublist (List.Sublist.map Prod.fst (List.filter_sublist m)) hw

theorem IdMap.get_retainNonEmpty (m : IdMap PaintList) (hw : IdMap.WF m) (k : Id) :
    IdMap.get (IdMap.retainNonEmpty m) k
      = match IdMap.get m k with
        | some l => if PaintList.is_empty l then none else some l
        | none => none := by
  induction m with
  | nil => rfl
  | cons p rest ih =>
    have hw0 : List.Nodup (p.1 :: List.map Prod.fst rest) := hw
    have hw' := List.nodup_cons.mp hw0
    by_cases he : PaintList.is_empty p.2
    · have hdrop : IdMap.retainNonEmpty (p :: rest) = IdMap.retainNonEmpty rest := by
        simp [IdMap.retainNonEmpty, List.filter_cons, he]
      rw [hdrop]
      by_cases hk : p.1 = k
      · have hnone : IdMap.get (IdMap.retainNonEmpty rest) k = none := by
          refine IdMap.get_none_of_not_mem _ _ ?_
          intro hmem
          exact hw'.1
            (hk ▸ (List.Sublist.map Prod.fst (List.filter_sublist rest)).subset hmem)
        rw [hnone, IdMap.get, if_pos hk]
        simp [he]
      · rw [IdMap.get, if_neg hk]
        exact ih hw'.2
    · have hkeep : IdMap.retainNonEmpty (p :: rest) = p :: IdMap.retainNonEmpty rest := by
        simp [IdMap.retainNonEmpty, List.filter_cons, he]
      rw [hkeep]
      by_cases hk : p.1 = k
      · rw [IdMap.get, if_pos hk, IdMap.get, if_pos hk]
        simp [he]
      · rw [IdMap.get, if_neg hk, IdMap.get, if_neg hk]
        exact ih hw'.2

theorem IdMap.get_some_split (m : IdMap PaintList) (hw : IdMap.WF m) (k : Id)
    (l : PaintList) (h : IdMap.get m k = some l) :
    ∃ pre post, m = pre ++ (k, l) :: post
      ∧ (∀ q ∈ pre, q.1 ≠ k) ∧ (∀ q ∈ post, q.1 ≠ k) := by
  induction m with
  | nil => exact absurd h (by simp [IdMap.get])
  | cons p rest ih =>
    have hw0 : List.Nodup (p.1 :: List.map Prod.fst rest) := hw
    have hw' := List.nodup_cons.mp hw0
    by_cases hk : p.1 = k
    · rw [IdMap.get, if_pos hk] at h
      refine ⟨[], rest, ?_, by simp, ?_⟩
      · have hp : p = (k, l) := by
          cases p
          simp_all
        rw [hp]
        simp
      · intro q hq hqk
        exact hw'.1 (hk ▸ hqk ▸ List.mem_map_of_mem Prod.fst hq)
    · rw [IdMap.get, if_neg hk] at h
      obtain ⟨pre, post, hm, hpre, hpost⟩ := ih hw'.2 h
      refine ⟨p :: pre, post, ?_, ?_, hpost⟩
      · rw [hm, List.cons_append]
      · intro q hq
        rcases List.mem_cons.mp hq with hq | hq
        · rw [hq]; exact hk
        · exact hpre q hq

theorem IdMap.setVal_split (pre post : IdMap PaintList) (k : Id) (l v : PaintList)
    (hpre : ∀ q ∈ pre, q.1 ≠ k) :
    IdMap.setVal (pre ++ (k, l) :: post) k v = pre ++ (k, v) :: IdMap.setVal post k v := by
  simp only [IdMap.setVal, List.map_append, List.map_cons, if_pos rfl]
  congr 1
  have heach : ∀ q ∈ pre, (if q.1 = k then (k, v) else q) = q := by
    intro q hq
    rw [if_neg (hpre q hq)]
  rw [List.map_congr_left heach]
  simp

theorem IdMap.setVal_of_not_mem (m : IdMap PaintList) (k : Id) (v : PaintList)
    (h : ∀ q ∈ m, q.1 ≠ k) : IdMap.setVal m k v = m := by
  have heach : ∀ q ∈ m, (if q.1 = k then (k, v) else q) = q := by
    intro q hq
    rw [if_neg (h q hq)]
  rw [IdMap.setVal, List.map_congr_left heach]
  simp

theorem IdMap.content_append (o : Order) (tg : LayerId → Option TSTransform)
    (m1 m2 : IdMap PaintList) :
    IdMap.content o tg (m1 ++ m2) = IdMap.content o tg m1 ++ IdMap.content o tg m2 := by
  simp [IdMap.content, List.flatMap_append]

theorem IdMap.content_length (o : Order) (tg : LayerId → Option TSTransform)
    (m : IdMap PaintList) :
    (IdMap.content o tg m).length
      = (List.map (fun p => List.length (Prod.snd p)) m).sum := by
  rw [IdMap.content, List.length_flatMap]
  congr 1
  apply List.map_congr_left
  intro p _
  simp [Function.comp, applyOptT_length]

/-- Swapping a block to the front of a concatenation is a permutation. -/
theorem perm_block_swap {α : Type} (T P Q : List α) :
    List.Perm (T ++ (P ++ Q)) (P ++ (T ++ Q)) := by
  rw [← List.append_assoc, ← List.append_assoc]
  exact List.Perm.append_right Q List.perm_append_comm

theorem GraphicLayers.drainAreaPass_eraseVals (o : Order)
    (tg : LayerId → Option TSTransform) (ao : List LayerId) :
    ∀ (m : IdMap PaintList) (acc : List ClippedShape),
    IdMap.eraseVals (GraphicLayers.drainAreaPass o tg ao m acc).1 = IdMap.eraseVals m := by
  induction ao with
  | nil => intro m acc; rfl
  | cons lid rest ih =>
    intro m acc
    simp only [GraphicLayers.drainAreaPass]
    by_cases ho : lid.order = o
    · rw [if_pos ho]
      cases hg : IdMap.get m lid.id with
      | some l =>
        rw [ih]
        exact IdMap.eraseVals_setVal m lid.id []
      | none => exact ih m acc
    · rw [if_neg ho]
      exact ih m acc

theorem GraphicLayers.drainAreaPass_nil_map (o : Order)
    (tg : LayerId → Option TSTransform) (ao : List LayerId) (acc : List ClippedShape) :
    GraphicLayers.drainAreaPass o tg ao [] acc = ([], acc) := by
  induction ao with
  | nil => rfl
  | cons lid rest ih =>
    simp only [GraphicLayers.drainAreaPass]
    by_cases ho : lid.order = o
    · rw [if_pos ho]
      exact ih
    · rw [if_neg ho]
      exact ih

theorem GraphicLayers.drainAreaPass_perm (o : Order)
    (tg : LayerId → Option TSTransform) (ao : List LayerId) :
    ∀ (m : IdMap PaintList) (acc : List ClippedShape), IdMap.WF m →
    List.Perm
      ((GraphicLayers.drainAreaPass o tg ao m acc).2
        ++ IdMap.content o tg (GraphicLayers.drainAreaPass o tg ao m acc).1)
      (acc ++ IdMap.content o tg m) := by
  induction ao with
  | nil => intro m acc _; simp [GraphicLayers.drainAreaPass]
  | cons lid rest ih =>
    intro m acc hw
    simp only [GraphicLayers.drainAreaPass]
    by_cases ho : lid.order = o
    · rw [if_pos ho]
      cases hg : IdMap.get m lid.id with
      | some l =>
        have hw' : IdMap.WF (IdMap.setVal m lid.id []) := by
          rw [IdMap.WF, IdMap.map_fst_setVal]
          exact hw
        refine (ih (IdMap.setVal m lid.id []) (acc ++ applyOptT (tg lid) l) hw').trans ?_
        obtain ⟨pre, post, hm, hpre, hpost⟩ := IdMap.get_some_split m hw lid.id l hg
        have hlid : lid = ⟨o, lid.id⟩ := by
          cases lid with
          | mk lo li => cases ho; rfl
        rw [hm, IdMap.setVal_split pre post lid.id l [] hpre,
          IdMap.setVal_of_not_mem post lid.id [] hpost,
          IdMap.content_append, IdMap.content_append]
        simp only [IdMap.content, List.flatMap_cons, applyOptT_nil, List.nil_append]
        rw [← hlid]
        simp only [List.append_assoc]
        exact List.Perm.append_left acc
          (perm_block_swap (applyOptT (tg lid) l) _ _)
      | none => exact ih m acc hw
    · rw [if_neg ho]
      exact ih m acc hw

theorem GraphicLayers.drainOrder_snd_eq (o : Order) (ao : List LayerId)
    (tg : LayerId → Option TSTransform) (m : IdMap PaintList) :
    (GraphicLayers.drainOrder o ao tg m).1
      = IdMap.eraseVals (IdMap.retainNonEmpty m) := by
  simp only [GraphicLayers.drainOrder]
  exact GraphicLayers.drainAreaPass_eraseVals o tg ao (IdMap.retainNonEmpty m) []

theorem GraphicLayers.drainOrder_perm (o : Order) (ao : List LayerId)
    (tg : LayerId → Option TSTransform) (m : IdMap PaintList) (hw : IdMap.WF m) :
    List.Perm (GraphicLayers.drainOrder o ao tg m).2
      (IdMap.content o tg (IdMap.retainNonEmpty m)) := by
  have h := GraphicLayers.drainAreaPass_perm o tg ao (IdMap.retainNonEmpty m) []
    (IdMap.WF_retainNonEmpty m hw)
  simpa [GraphicLayers.drainOrder] using h

theorem GraphicLayers.drainOrder_nil (o : Order) (ao : List LayerId)
    (tg : LayerId → Option TSTransform) :
    GraphicLayers.drainOrder o ao tg [] = ([], []) := by
  simp [GraphicLayers.drainOrder, IdMap.retainNonEmpty,
    GraphicLayers.drainAreaPass_nil_map, IdMap.content, IdMap.eraseVals]

theorem GraphicLayers.drainOrder_eraseVals (o : Order) (ao : List LayerId)
    (tg : LayerId → Option TSTransform) (m : IdMap PaintList) :
    GraphicLayers.drainOrder o ao tg (IdMap.eraseVals m) = ([], []) := by
  simp only [GraphicLayers.drainOrder, IdMap.retainNonEmpty_eraseVals,
    GraphicLayers.drainAreaPass_nil_map]
  rfl

theorem GraphicLayers.drain_fst (gl : GraphicLayers) (ao : List LayerId)
    (tg : LayerId → Option TSTransform) :
    (GraphicLayers.drain gl ao tg).1
      = (GraphicLayers.drainOrder .Background ao tg (gl .Background)).2
        ++ (GraphicLayers.drainOrder .Middle ao tg (gl .Middle)).2
        ++ (GraphicLayers.drainOrder .Foreground ao tg (gl .Foreground)).2
        ++ (GraphicLayers.drainOrder .Tooltip ao tg (gl .Tooltip)).2
        ++ (GraphicLayers.drainOrder .Debug ao tg (gl .Debug)).2 := rfl

theorem GraphicLayers.drain_snd (gl : GraphicLayers) (ao : List LayerId)
    (tg : LayerId → Option TSTransform) (o : Order) :
    (GraphicLayers.drain gl ao tg).2 o
      = (GraphicLayers.drainOrder o ao tg (gl o)).1 := by
  cases o <;> rfl

theorem GraphicLayers.drain_get (gl : GraphicLayers) (ao : List LayerId)
    (tg : LayerId → Option TSTransform) (lid : LayerId)
    (hw : IdMap.WF (gl lid.order)) :
    IdMap.get ((GraphicLayers.drain gl ao tg).2 lid.order) lid.id
      = match IdMap.get (gl lid.order) lid.id with
        | some l => if PaintList.is_empty l then none else some []
        | none => none := by
  rw [GraphicLayers.drain_snd, GraphicLayers.drainOrder_snd_eq, IdMap.get_eraseVals,
    IdMap.get_retainNonEmpty _ hw]
  cases IdMap.get (gl lid.order) lid.id with
  | none => rfl
  | some l =>
    by_cases he : PaintList.is_empty l <;> simp [he]

/-! ### Claims about `GraphicLayers.drain` -/

/-- C1: `drain` emits shapes grouped by `Order` category, the categories in
increasing order Background, Middle, Foreground, Tooltip, Debug: for every
state the output is the concatenation of the five per-category segments in
that order. In particular, for the scenario — default `GraphicLayers`, two
shapes added via `entry` on a Middle layer, one via `entry` on a Background
layer, then `drain` with empty `area_order` and empty transform map — the
output has length 3 and the Background-layer shape precedes both
Middle-layer shapes. -/
theorem C1_drain_grouped_by_order :
    (∀ (gl : GraphicLayers) (ao : List LayerId) (tg : LayerId → Option TSTransform),
      (GraphicLayers.drain gl ao tg).1
        = (GraphicLayers.drainOrder .Background ao tg (gl .Background)).2
          ++ (GraphicLayers.drainOrder .Middle ao tg (gl .Middle)).2
          ++ (GraphicLayers.drainOrder .Foreground ao tg (gl .Foreground)).2
          ++ (GraphicLayers.drainOrder .Tooltip ao tg (gl .Tooltip)).2
          ++ (GraphicLayers.drainOrder .Debug ao tg (gl .Debug)).2)
    ∧ (GraphicLayers.drain
          (GraphicLayers.entry_add
            (GraphicLayers.entry_add
              (GraphicLayers.entry_add GraphicLayers.empty ⟨.Middle, 0⟩ 1 10)
              ⟨.Middle, 0⟩ 2 11)
            ⟨.Background, 1⟩ 3 20)
          [] (fun _ => none)).1
        = [⟨3, 20⟩, ⟨1, 10⟩, ⟨2, 11⟩] :=
  ⟨GraphicLayers.drain_fst, by decide⟩

/-- C2: within one `Order` category, `drain` emits the layers named in
`area_order` first, in the sequence they appear there, before any unnamed
layer of the category. For two non-empty layers X (created first) and Y of
the same category: `area_order = [Y, X]` yields Y's shapes before X's, and
`area_order = [Y]` still yields Y's shapes before X's (X falls back to the
leftover pass). -/
theorem C2_area_order_sequencing (o : Order) (idX idY : Id) (lx ly : PaintList)
    (hne : idX ≠ idY) (hx : lx ≠ []) (hy : ly ≠ []) :
    (GraphicLayers.drain (fun oo => if oo = o then [(idX, lx), (idY, ly)] else [])
        [⟨o, idY⟩, ⟨o, idX⟩] (fun _ => none)).1 = ly ++ lx
    ∧ (GraphicLayers.drain (fun oo => if oo = o then [(idX, lx), (idY, ly)] else [])
        [⟨o, idY⟩] (fun _ => none)).1 = ly ++ lx := by
  have hx' : List.isEmpty lx = false := List.isEmpty_eq_false.mpr hx
  have hy' : List.isEmpty ly = false := List.isEmpty_eq_false.mpr hy
  refine ⟨?_, ?_⟩
  all_goals rw [GraphicLayers.drain_fst]
  all_goals cases o
  all_goals simp [GraphicLayers.drainOrder, GraphicLayers.drainAreaPass,
    GraphicLayers.drainOrder_nil, IdMap.retainNonEmpty, IdMap.get, IdMap.setVal,
    IdMap.content, IdMap.eraseVals, applyOptT, PaintList.is_empty,
    hx', hy', hne, Ne.symm hne, List.filter_cons]

/-- Witness for C2 at concrete inputs: layer X (id 0, two shapes) created
before layer Y (id 1, one shape), both Middle. -/
theorem C2_area_order_sequencing_witness :
    (GraphicLayers.drain
        (fun oo => if oo = Order.Middle
          then [(0, [⟨1, 1⟩, ⟨2, 2⟩]), (1, [⟨3, 3⟩])] else [])
        [⟨Order.Middle, 1⟩, ⟨Order.Middle, 0⟩] (fun _ => none)).1
      = [⟨3, 3⟩] ++ [⟨1, 1⟩, ⟨2, 2⟩]
    ∧ (GraphicLayers.drain
        (fun oo => if oo = Order.Middle
          then [(0, [⟨1, 1⟩, ⟨2, 2⟩]), (1, [⟨3, 3⟩])] else [])
        [⟨Order.Middle, 1⟩] (fun _ => none)).1
      = [⟨3, 3⟩] ++ [⟨1, 1⟩, ⟨2, 2⟩] :=
  C2_area_order_sequencing Order.Middle 0 1 [⟨1, 1⟩, ⟨2, 2⟩] [⟨3, 3⟩]
    (by decide) (by decide) (by decide)

/-- C3: `drain` removes a layer's slot iff its `PaintList` was empty when
the drain started; a layer whose list was non-empty survives, and after the
drain its list is empty while its slot remains. A layer with no slot before
the drain has none after it either. -/
theorem C3_prune_iff_empty_at_start (gl : GraphicLayers) (ao : List LayerId)
    (tg : LayerId → Option TSTransform) (lid : LayerId)
    (hw : GraphicLayers.WF gl) :
    (∀ l, IdMap.get (gl lid.order) lid.id = some l →
      ((IdMap.get ((GraphicLayers.drain gl ao tg).2 lid.order) lid.id = none ↔ l = [])
        ∧ (l ≠ [] →
            IdMap.get ((GraphicLayers.drain gl ao tg).2 lid.order) lid.id = some [])))
    ∧ (IdMap.get (gl lid.order) lid.id = none →
        IdMap.get ((GraphicLayers.drain gl ao tg).2 lid.order) lid.id = none) := by
  have hg := GraphicLayers.drain_get gl ao tg lid (hw lid.order)
  constructor
  · intro l hl
    rw [hl] at hg
    by_cases hl0 : l = []
    · subst hl0
      rw [hg]
      simp [PaintList.is_empty]
    · have hf : PaintList.is_empty l = false := by
        rw [PaintList.is_empty]
        exact List.isEmpty_eq_false.mpr hl0
      rw [hg]
      constructor
      · simp [hf, hl0]
      · intro _
        simp [hf]
  · intro hnone
    rw [hnone] at hg
    exact hg

/-- Witness for C3 at concrete inputs: a Middle layer drawn into this frame
survives the drain with an emptied list, a Middle layer left empty is
pruned. -/
theorem C3_prune_iff_empty_at_start_witness :
    IdMap.get ((GraphicLayers.drain
        (fun oo => if oo = Order.Middle then [(0, [⟨1, 1⟩]), (5, [])] else [])
        [] (fun _ => none)).2 Order.Middle) 0 = some []
    ∧ (IdMap.get ((GraphicLayers.drain
        (fun oo => if oo = Order.Middle then [(0, [⟨1, 1⟩]), (5, [])] else [])
        [] (fun _ => none)).2 Order.Middle) 5 = none ↔ ([] : PaintList) = []) :=
  ⟨((C3_prune_iff_empty_at_start
        (fun oo => if oo = Order.Middle then [(0, [⟨1, 1⟩]), (5, [])] else [])
        [] (fun _ => none) ⟨Order.Middle, 0⟩
        (by intro o; cases o <;> (unfold IdMap.WF; decide))).1
      [⟨1, 1⟩] (by decide)).2 (by decide),
   ((C3_prune_iff_empty_at_start
        (fun oo => if oo = Order.Middle then [(0, [⟨1, 1⟩]), (5, [])] else [])
        [] (fun _ => none) ⟨Order.Middle, 5⟩
        (by intro o; cases o <;> (unfold IdMap.WF; decide))).1
      [] (by decide)).1⟩

/-- C4: draining twice in a row with no intervening additions yields an
empty output on the second drain, for every state and every pair of
`area_order`/transform arguments. -/
theorem C4_drain_twice_empty (gl : GraphicLayers) (ao ao2 : List LayerId)
    (tg tg2 : LayerId → Option TSTransform) :
    (GraphicLayers.drain (GraphicLayers.drain gl ao tg).2 ao2 tg2).1 = [] := by
  rw [GraphicLayers.drain_fst]
  have h : ∀ o : Order,
      (GraphicLayers.drainOrder o ao2 tg2 ((GraphicLayers.drain gl ao tg).2 o)).2
        = [] := by
    intro o
    rw [GraphicLayers.drain_snd, GraphicLayers.drainOrder_snd_eq,
      GraphicLayers.drainOrder_eraseVals]
  simp [h]

/-- C9: every shape surviving the pruning step is emitted exactly once per
drain: the output is a permutation of the concatenation, over all orders,
of the retained layers' contents, each entry transformed once by its
layer's registered `to_global` transform; in particular the output length
is the sum of the surviving layers' lengths. (A layer already moved out by
the `area_order` pass — also a duplicated `area_order` entry — contributes
nothing further, since its slot holds the empty list.) -/
theorem C9_drain_conservation (gl : GraphicLayers) (ao : List LayerId)
    (tg : LayerId → Option TSTransform) (hw : GraphicLayers.WF gl) :
    List.Perm (GraphicLayers.drain gl ao tg).1
      (List.flatMap Order.ALL
        (fun o => IdMap.content o tg (IdMap.retainNonEmpty (gl o))))
    ∧ (GraphicLayers.drain gl ao tg).1.length
        = (List.map
            (fun o => (List.map (fun p => List.length (Prod.snd p))
              (IdMap.retainNonEmpty (gl o))).sum)
            Order.ALL).sum := by
  have hB := GraphicLayers.drainOrder_perm .Background ao tg (gl .Background)
    (hw .Background)
  have hM := GraphicLayers.drainOrder_perm .Middle ao tg (gl .Middle) (hw .Middle)
  have hF := GraphicLayers.drainOrder_perm .Foreground ao tg (gl .Foreground)
    (hw .Foreground)
  have hT := GraphicLayers.drainOrder_perm .Tooltip ao tg (gl .Tooltip) (hw .Tooltip)
  have hD := GraphicLayers.drainOrder_perm .Debug ao tg (gl .Debug) (hw .Debug)
  have hperm : List.Perm (GraphicLayers.drain gl ao tg).1
      (List.flatMap Order.ALL
        (fun o => IdMap.content o tg (IdMap.retainNonEmpty (gl o)))) := by
    rw [GraphicLayers.drain_fst]
    refine ((((hB.append hM).append hF).append hT).append hD).trans ?_
    apply List.Perm.of_eq
    simp [Order.ALL]
  refine ⟨hperm, ?_⟩
  rw [hperm.length_eq, List.length_flatMap]
  congr 1
  apply List.map_congr_left
  intro o _
  exact IdMap.content_length o tg (IdMap.retainNonEmpty (gl o))

/-- Witness for C9 at concrete inputs: two Middle layers, a duplicate
`area_order` entry, and a transform registered for one layer. -/
theorem C9_drain_conservation_witness :
    List.Perm (GraphicLayers.drain
        (fun oo => if oo = Order.Middle
          then [(0, [⟨1, 1⟩, ⟨2, 2⟩]), (1, [⟨3, 3⟩])] else [])
        [⟨Order.Middle, 0⟩, ⟨Order.Middle, 0⟩]
        (fun lid => if lid.id = 0
          then some ⟨fun r => r + 100, fun s => s + 100⟩ else none)).1
      (List.flatMap Order.ALL
        (fun o => IdMap.content o
          (fun lid => if lid.id = 0
            then some ⟨fun r => r + 100, fun s => s + 100⟩ else none)
          (IdMap.retainNonEmpty
            ((fun oo => if oo = Order.Middle
              then [(0, [⟨1, 1⟩, ⟨2, 2⟩]), (1, [⟨3, 3⟩])] else []) o))))
    ∧ (GraphicLayers.drain
        (fun oo => if oo = Order.Middle
          then [(0, [⟨1, 1⟩, ⟨2, 2⟩]), (1, [⟨3, 3⟩])] else [])
        [⟨Order.Middle, 0⟩, ⟨Order.Middle, 0⟩]
        (fun lid => if lid.id = 0
          then some ⟨fun r => r + 100, fun s => s + 100⟩ else none)).1.length
        = (List.map
            (fun o => (List.map (fun p => List.length (Prod.snd p))
              (IdMap.retainNonEmpty
                ((fun oo => if oo = Order.Middle
                  then [(0, [⟨1, 1⟩, ⟨2, 2⟩]), (1, [⟨3, 3⟩])] else []) o))).sum)
            Order.ALL).sum :=
  C9_drain_conservation
    (fun oo => if oo = Order.Middle
      then [(0, [⟨1, 1⟩, ⟨2, 2⟩]), (1, [⟨3, 3⟩])] else [])
    [⟨Order.Middle, 0⟩, ⟨Order.Middle, 0⟩]
    (fun lid => if lid.id = 0
      then some ⟨fun r => r + 100, fun s => s + 100⟩ else none)
    (by intro o; cases o <;> (unfold IdMap.WF; decide))

end EguiLayers
